import Mathlib

/-!
Formal model of the AlphaTrader stock dashboard (src/TWapp.py): the indicator
pipeline `calculate_technical_indicators` (lines 72-114), the per-bar signal
classifier (lines 99-112), the single-ticker analysis path `get_analysis_data`
(lines 117-140), the batch scanner `scan_market_summary` (lines 143-172), and
the JSON snapshot store `save_snapshot` / `load_snapshot` with the module-level
once-per-day guard (lines 47-69 and 213-217).

Numbers are exact rationals; a pandas NaN cell is `none`.  A price frame is a
list of `Bar`s in time order.  The technical-indicator primitives (EMA, MACD,
CMF, MFI, SMA, ATR) are the pandas / pandas_ta routines the app calls; they are
modelled here in exact arithmetic, following the algorithm descriptions of the
specification (recursive EMA seeded by the simple average of the first N bars,
rolling window sums with a full-window minimum, Chaikin money-flow multiplier
defined as 0 when High = Low, Wilder-style true range averaged with alpha 1/N).
-/

/-- A pandas cell: `none` stands for NaN. -/
abbrev Cell := Option ℚ

/-- Pandas comparison `a < b`: false when either side is NaN. -/
def oLtB (a b : Cell) : Bool :=
  match a, b with
  | some x, some y => decide (x < y)
  | _, _ => false

/-- Pandas comparison `a > b`: false when either side is NaN. -/
def oGtB (a b : Cell) : Bool := oLtB b a

/-- NaN-propagating addition. -/
def oAdd (a b : Cell) : Cell :=
  match a, b with
  | some x, some y => some (x + y)
  | _, _ => none

/-- NaN-propagating subtraction. -/
def oSub (a b : Cell) : Cell :=
  match a, b with
  | some x, some y => some (x - y)
  | _, _ => none

/-- NaN-propagating multiplication. -/
def oMul (a b : Cell) : Cell :=
  match a, b with
  | some x, some y => some (x * y)
  | _, _ => none

/-- NaN-propagating division; a zero divisor yields an undefined cell. -/
def oDiv (a b : Cell) : Cell :=
  match a, b with
  | some x, some y => if y = 0 then none else some (x / y)
  | _, _ => none

/-- One OHLCV row of the downloaded frame.  Field names follow the pandas
column names used by TWapp.py. -/
structure Bar where
  Open : Cell
  High : Cell
  Low : Cell
  Close : Cell
  Volume : Cell
deriving DecidableEq

/-- Forward-fill value of a column at the last index of the given prefix:
the most recent non-NaN entry (pandas `DataFrame.ffill`, line 75). -/
def ffillLast (xs : List Cell) : Cell :=
  xs.foldl (fun st x => match x with | some v => some v | none => st) none

/-- `df.ffill()` over all five OHLCV columns (line 75): entry i of a column is
the latest defined value at an index at most i. -/
def ffillBars (df : List Bar) : List Bar :=
  (List.range df.length).map (fun i =>
    { Open := ffillLast ((df.take (i + 1)).map Bar.Open)
      High := ffillLast ((df.take (i + 1)).map Bar.High)
      Low := ffillLast ((df.take (i + 1)).map Bar.Low)
      Close := ffillLast ((df.take (i + 1)).map Bar.Close)
      Volume := ffillLast ((df.take (i + 1)).map Bar.Volume) })

/-- One step of the exponential moving average recursion
`y = (1 - alpha) * y + alpha * x`; a NaN observation keeps the running value
(pandas `ewm(adjust=False).mean()` carries the last mean across NaNs). -/
def ewmStep (α : ℚ) (st : Cell) (x : Cell) : Cell :=
  match x with
  | none => st
  | some v =>
    match st with
    | none => some v
    | some y => some ((1 - α) * y + α * v)

/-- Mean of the defined entries of a column slice (pandas `Series.mean`,
NaN-skipping); NaN when no entry is defined. -/
def optMean (xs : List Cell) : Cell :=
  let vs := xs.filterMap id
  if vs.length = 0 then none else some (vs.sum / (vs.length : ℚ))

/-- Modelled from the spec: the seeding transform of the TA library EMA (the
library source is not part of this repository).  The first N-1 entries become
NaN and entry N-1 becomes the simple average of the first N entries, after
which the recursive EMA runs. -/
def emaSeed (n : ℕ) (xs : List Cell) : List Cell :=
  (List.range xs.length).map (fun i =>
    if i + 1 < n then none
    else if i + 1 = n then optMean (xs.take n)
    else xs.getD i none)

/-- Modelled from the spec: `ta.ema(xs, length := n)` as a column, the
recursion `EMA_t = alpha * Price_t + (1 - alpha) * EMA_{t-1}` with
`alpha = 2 / (N + 1)`, seeded by the simple average of the first N entries. -/
def emaCol (n : ℕ) (xs : List Cell) : List Cell :=
  (List.scanl (ewmStep (2 / ((n : ℚ) + 1))) none (emaSeed n xs)).tail

/-- Last entry of a column (NaN for the empty column). -/
def lastO (xs : List Cell) : Cell := xs.getLastD none

/-- The trailing window of size n of a column (all of it when shorter). -/
def windowLast (n : ℕ) (xs : List Cell) : List Cell := xs.drop (xs.length - n)

/-- Rolling sum with window n and `min_periods = n`, at the last index of the
given prefix: defined only when the window holds n defined entries. -/
def rollSumLast (n : ℕ) (xs : List Cell) : Cell :=
  let vs := (windowLast n xs).filterMap id
  if n ≤ vs.length then some vs.sum else none

/-- Rolling mean with window n and `min_periods = n`, at the last index
(pandas_ta `sma`, used for `Vol_SMA_10` on line 95). -/
def rollMeanLast (n : ℕ) (xs : List Cell) : Cell :=
  let vs := (windowLast n xs).filterMap id
  if n ≤ vs.length then some (vs.sum / (n : ℚ)) else none

/-- Modelled from the spec: the Wilder moving average `rma` the TA library
uses inside `ta.atr` — an adjusted exponential weighting with
`alpha = 1 / n` and `min_periods = n`; NaN entries decay the weights without
contributing an observation. -/
def rmaLast (n : ℕ) (xs : List Cell) : Cell :=
  let β : ℚ := 1 - 1 / (n : ℚ)
  let s := xs.foldl
    (fun (acc : ℚ × ℚ × ℕ) x =>
      match x with
      | none => (β * acc.1, β * acc.2.1, acc.2.2)
      | some v => (β * acc.1 + v, β * acc.2.1 + 1, acc.2.2 + 1))
    (0, 0, 0)
  if n ≤ s.2.2 ∧ s.2.1 ≠ 0 then some (s.1 / s.2.1) else none

/-- MACD line column: `EMA_12 - EMA_26` of the (forward-filled) closes
(`ta.macd(close, 12, 26, 9)`, line 82; renamed `MACD_Line` on line 85). -/
def macdLineCol (closes : List Cell) : List Cell :=
  List.zipWith oSub (emaCol 12 closes) (emaCol 26 closes)

/-- MACD signal value at the last index: the 9-period EMA of the MACD line
sliced from its first defined entry (renamed `MACD_Signal` on line 85). -/
def macdSignalLast (closes : List Cell) : Cell :=
  let line := macdLineCol closes
  lastO (emaCol 9 (line.drop (line.findIdx Option.isSome)))

/-- MACD histogram at the last index: line minus signal (renamed `MACD_Hist`
on line 85; the TA library returns its columns in the order line, histogram,
signal, so the positional renaming on line 85 maps the histogram column to
`MACD_Hist`). -/
def macdHistLast (closes : List Cell) : Cell :=
  oSub (lastO (macdLineCol closes)) (macdSignalLast closes)

/-- Modelled from the spec: per-bar Chaikin money flow volume of `ta.cmf`
(line 90) — multiplier `((Close - Low) - (High - Close)) / (High - Low)`,
defined as 0 when High = Low, times Volume. -/
def mfvBar (b : Bar) : Cell :=
  match b.High, b.Low, b.Close, b.Volume with
  | some h, some l, some c, some v =>
    if h = l then some 0 else some ((((c - l) - (h - c)) / (h - l)) * v)
  | _, _, _, _ => none

/-- CMF at the last index of the given (forward-filled) frame: the 20-bar
rolling sum of money flow volume divided by the 20-bar rolling sum of volume
(`ta.cmf(high, low, close, volume, length = 20)`, line 90). -/
def cmfLast (fp : List Bar) : Cell :=
  oDiv (rollSumLast 20 (fp.map mfvBar)) (rollSumLast 20 (fp.map Bar.Volume))

/-- Typical price `(High + Low + Close) / 3` used by `ta.mfi` (line 92). -/
def typPrice (b : Bar) : Cell :=
  match b.High, b.Low, b.Close with
  | some h, some l, some c => some ((h + l + c) / 3)
  | _, _, _ => none

/-- Raw money flow: typical price times volume. -/
def rawMF (b : Bar) : Cell := oMul (typPrice b) b.Volume

/-- Direction of the typical-price change: 1 if it rose, -1 if it fell,
0 otherwise (including when either side is NaN — a NaN comparison is false). -/
def flowSign (cur prev : Cell) : Int :=
  match cur, prev with
  | some a, some b => if b < a then 1 else if a < b then -1 else 0
  | _, _ => 0

/-- The column shifted down by one (pandas `shift(1)`): NaN first. -/
def prevList (xs : List Cell) : List Cell := none :: xs.dropLast

/-- Positive money-flow column of `ta.mfi`: the raw money flow where the
typical price rose, else 0. -/
def posFlows (fp : List Bar) : List Cell :=
  List.zipWith (fun b pt => if flowSign (typPrice b) pt = 1 then rawMF b else some 0)
    fp (prevList (fp.map typPrice))

/-- Negative money-flow column of `ta.mfi`: the raw money flow where the
typical price fell, else 0. -/
def negFlows (fp : List Bar) : List Cell :=
  List.zipWith (fun b pt => if flowSign (typPrice b) pt = -1 then rawMF b else some 0)
    fp (prevList (fp.map typPrice))

/-- Modelled from the spec: MFI at the last index
(`ta.mfi(high, low, close, volume, length = 14)`, line 92) —
`100 * PositiveFlowSum / (PositiveFlowSum + NegativeFlowSum)` over 14-bar
rolling sums, undefined when the total flow is zero. -/
def mfiLast (fp : List Bar) : Cell :=
  let p := rollSumLast 14 (posFlows fp)
  let n := rollSumLast 14 (negFlows fp)
  oDiv (oMul (some 100) p) (oAdd p n)

/-- Modelled from the spec: Wilder true range of a bar against the previous
close — the largest of |High - Low|, |High - PrevClose|, |PrevClose - Low|
over the defined candidates, NaN when none is defined. -/
def trPair (b : Bar) (pc : Cell) : Cell :=
  let cands := ([oSub b.High b.Low, oSub b.High pc, oSub pc b.Low].filterMap id).map
    (fun x => |x|)
  match cands with
  | [] => none
  | y :: ys => some (ys.foldl max y)

/-- True-range column: the first entry is forced to NaN, afterwards each bar
is ranged against the previous close. -/
def trList (fp : List Bar) : List Cell :=
  match fp with
  | [] => []
  | _ :: rest => none :: List.zipWith trPair rest ((fp.map Bar.Close).dropLast)

/-- ATR at the last index: 14-period Wilder average of the true range
(`ta.atr(high, low, close, length = 14)`, line 96). -/
def atrLast (fp : List Bar) : Cell := rmaLast 14 (trList fp)

/-- The signal rule of lines 99-112: a BUY/HOLD choice by `np.select` with the
five-way conjunction of line 101-107, then the SELL condition of line 111
overwrites the label.  NaN comparisons are false on both passes. -/
def signalOf (close ema8 ema21 hist prevHist cmf : Cell) : String :=
  let buy := oGtB close ema8 && oGtB ema8 ema21 && oGtB hist (some 0) &&
    oGtB hist prevHist && oGtB cmf (some (-(1 / 20)))
  let s0 := if buy then "BUY" else "HOLD"
  let sell := oLtB close ema21 || oLtB hist (some 0) || oLtB cmf (some (-(1 / 5)))
  if sell then "SELL" else s0

/-- One row of the enriched frame returned by
`calculate_technical_indicators`: the forward-filled OHLCV cells plus every
derived column and the signal label. -/
structure IndRow where
  Open : Cell
  High : Cell
  Low : Cell
  Close : Cell
  Volume : Cell
  EMA_8 : Cell
  EMA_21 : Cell
  MACD_Line : Cell
  MACD_Hist : Cell
  MACD_Signal : Cell
  CMF : Cell
  MFI : Cell
  Vol_SMA_10 : Cell
  ATR : Cell
  Stop_Loss : Cell
  Signal : String
deriving DecidableEq

/-- The enriched row at the last index of a forward-filled frame: every
derived value is a function of that bar and the bars before it, exactly as
each pandas column entry is. -/
def rowAt (fp : List Bar) (atr_mult : ℚ) : IndRow :=
  let b := fp.getLastD ⟨none, none, none, none, none⟩
  let closes := fp.map Bar.Close
  let ema8 := lastO (emaCol 8 closes)
  let ema21 := lastO (emaCol 21 closes)
  let hist := macdHistLast closes
  let cmf := cmfLast fp
  let atr := atrLast fp
  { Open := b.Open
    High := b.High
    Low := b.Low
    Close := b.Close
    Volume := b.Volume
    EMA_8 := ema8
    EMA_21 := ema21
    MACD_Line := lastO (macdLineCol closes)
    MACD_Hist := hist
    MACD_Signal := macdSignalLast closes
    CMF := cmf
    MFI := mfiLast fp
    Vol_SMA_10 := rollMeanLast 10 (fp.map Bar.Volume)
    ATR := atr
    Stop_Loss := oSub b.Close (oMul atr (some atr_mult))
    Signal := signalOf b.Close ema8 ema21 hist (macdHistLast closes.dropLast) cmf }

/-- The whole enrichment step of lines 75-112: forward-fill, then every
derived column; entry i is computed from the first i+1 forward-filled bars. -/
def computeIndicators (df : List Bar) (atr_mult : ℚ) : List IndRow :=
  let fdf := ffillBars df
  (List.range fdf.length).map (fun i => rowAt (fdf.take (i + 1)) atr_mult)

/-- Result of `calculate_technical_indicators`: the Python function returns
the pair `(df, "數據不足")` — the input frame untouched — on the short-input
path, and `(enriched df, None)` otherwise. -/
inductive CTIResult where
  | err (df : List Bar) (msg : String)
  | ok (rows : List IndRow)
deriving DecidableEq

/-- Whether the enrichment ran (the error component was `None`). -/
def CTIResult.isOk : CTIResult → Bool
  | .ok _ => true
  | .err _ _ => false

/-- The enriched rows, empty on the error path. -/
def CTIResult.rows : CTIResult → List IndRow
  | .ok rs => rs
  | .err _ _ => []

/-- `calculate_technical_indicators(df, atr_mult)` (lines 72-114): fewer than
50 bars returns the input frame with the error string "數據不足" before any
forward-fill; otherwise the full enrichment runs. -/
def calculate_technical_indicators (df : List Bar) (atr_mult : ℚ) : CTIResult :=
  if df.length < 50 then .err df "數據不足" else .ok (computeIndicators df atr_mult)

/-- The flow payload assembled on lines 132-136. -/
structure FlowData where
  CMF : Cell
  MFI : Cell
  Vol_Ratio : Cell
deriving DecidableEq

/-- Line 135: `last.Volume / last.Vol_SMA_10 if last.Vol_SMA_10 > 0 else 1.0`.
The NaN comparison is false, so a NaN SMA also yields 1.0. -/
def volRatio (volume volSma : Cell) : Cell :=
  if oGtB volSma (some 0) then oDiv volume volSma else some 1

/-- Lines 123-125 and 152-154: when the frame is nonempty and the Close of its
last row is NaN, that row is removed. -/
def dropLastIfNaN (df : List Bar) : List Bar :=
  match df.getLast? with
  | some b => if b.Close = none then df.dropLast else df
  | none => df

/-- `get_analysis_data` (lines 117-140) on an already-downloaded frame: drop a
trailing NaN-Close row, enrich, and extract the flow payload of the last row.
The error string is surfaced to the caller; indexing an empty result is the
exception path of the surrounding try block. -/
def get_analysis_data (df0 : List Bar) (atr_mult : ℚ) :
    Except String (List IndRow × FlowData) :=
  let df1 := dropLastIfNaN df0
  match calculate_technical_indicators df1 atr_mult with
  | .err _ msg => .error msg
  | .ok rows =>
    match rows.getLast? with
    | none => .error "index out of bounds"
    | some last =>
      .ok (rows, ⟨last.CMF, last.MFI, volRatio last.Volume last.Vol_SMA_10⟩)

/-- Last enriched row of a successful analysis. -/
def gaLastRow : Except String (List IndRow × FlowData) → Option IndRow
  | .ok (rows, _) => rows.getLast?
  | .error _ => none

/-- Flow payload of a successful analysis. -/
def gaFlow : Except String (List IndRow × FlowData) → Option FlowData
  | .ok (_, f) => some f
  | .error _ => none

/-- The three summary buckets of `scan_market_summary`. -/
inductive Bucket where
  | buy
  | hold
  | sell
deriving DecidableEq

/-- The partition returned by `scan_market_summary` (line 145). -/
structure Summary where
  BUY : List String
  HOLD : List String
  SELL : List String
deriving DecidableEq

/-- Line 163: the flow-direction suffix attached to a ticker in the summary
table; NaN CMF compares false on both sides and gets no suffix. -/
def flowSuffix (cmf : Cell) : String :=
  if oGtB cmf (some (1 / 20)) then " (資金入)"
  else if oLtB cmf (some (-(1 / 20))) then " (資金出)"
  else ""

/-- The body of the per-ticker loop of lines 150-169: `none` is the `continue`
path (missing data, empty frame after the NaN drop, the "數據不足" error, or
any exception swallowed by the inner try); otherwise the bucket chosen on
lines 166-168 together with the display string of line 164. -/
def processTicker (fetch : String → Option (List Bar)) (atr_mult : ℚ)
    (t : String) : Option (Bucket × String) :=
  match fetch t with
  | none => none
  | some df0 =>
    let df1 := dropLastIfNaN df0
    if df1.isEmpty then none
    else
      match calculate_technical_indicators df1 atr_mult with
      | .err _ _ => none
      | .ok rows =>
        match rows.getLast? with
        | none => none
        | some last =>
          some
            (if last.Signal = "BUY" then Bucket.buy
             else if last.Signal = "SELL" then Bucket.sell
             else Bucket.hold,
             t ++ flowSuffix last.CMF)

/-- `scan_market_summary` (lines 143-172) as a function of the per-ticker
download result: each ticker that survives its loop body appends its display
string to exactly the bucket chosen for it, in ticker order. -/
def scan_market_summary (tickers : List String)
    (fetch : String → Option (List Bar)) (atr_mult : ℚ) : Summary :=
  let results := tickers.filterMap (processTicker fetch atr_mult)
  { BUY := results.filterMap (fun r => if r.1 = Bucket.buy then some r.2 else none)
    HOLD := results.filterMap (fun r => if r.1 = Bucket.hold then some r.2 else none)
    SELL := results.filterMap (fun r => if r.1 = Bucket.sell then some r.2 else none) }

/-- Adding a display string to one bucket of a summary, leaving the others
untouched. -/
def addToBucket (b : Bucket) (d : String) (s : Summary) : Summary :=
  match b with
  | .buy => { s with BUY := d :: s.BUY }
  | .hold => { s with HOLD := d :: s.HOLD }
  | .sell => { s with SELL := d :: s.SELL }

/-- One record of the JSON snapshot file (lines 56-61); the date and timestamp
strings are those of the clock at write time. -/
structure SnapshotRecord where
  date : String
  timestamp : String
  close_price : Cell
  flow_data : FlowData
deriving DecidableEq

/-- The snapshot file content: a JSON object, keyed by ticker, in insertion
order. -/
abbrev SnapshotStore := List (String × SnapshotRecord)

/-- `load_snapshot(ticker)` (lines 47-53): the record stored under the ticker,
if any. -/
def load_snapshot (store : SnapshotStore) (ticker : String) : Option SnapshotRecord :=
  (store.find? (fun kv => kv.1 == ticker)).map Prod.snd

/-- JSON object update `all_data[ticker] = record` (line 67): replace the
entry under an existing key, otherwise append a new entry. -/
def dictInsert (store : SnapshotStore) (t : String) (r : SnapshotRecord) :
    SnapshotStore :=
  if store.any (fun kv => kv.1 == t) then
    store.map (fun kv => if kv.1 == t then (t, r) else kv)
  else store ++ [(t, r)]

/-- `save_snapshot(ticker, price, flow_data)` (lines 55-69): write a record
carrying the current date and timestamp under the ticker key and rewrite the
whole store.  The clock readings are passed explicitly. -/
def save_snapshot (store : SnapshotStore) (ticker : String)
    (now_date now_ts : String) (price : Cell) (flow : FlowData) : SnapshotStore :=
  dictInsert store ticker ⟨now_date, now_ts, price, flow⟩

/-- The module-level close-window guard of lines 213-217: load the stored
record and call `save_snapshot` only when there is none or its date differs
from the current (US/Eastern) trading date.  `est_date` is the date the guard
compares against; `now_date`/`now_ts` are the clock readings `save_snapshot`
would persist. -/
def snapshotGuardStep (store : SnapshotStore) (ticker : String)
    (est_date now_date now_ts : String) (price : Cell) (flow : FlowData) :
    SnapshotStore :=
  match load_snapshot store ticker with
  | none => save_snapshot store ticker now_date now_ts price flow
  | some saved =>
    if saved.date ≠ est_date then save_snapshot store ticker now_date now_ts price flow
    else store

/-- Number of entries stored under a ticker key. -/
def countKey (store : SnapshotStore) (t : String) : ℕ :=
  (store.filter (fun kv => kv.1 == t)).length

/-- A flat bar: all four prices equal to x, volume v. -/
def flatPB (x v : ℚ) : Bar := ⟨some x, some x, some x, some x, some v⟩

/-- The flat bar of the end-to-end example: price 100, volume 1000. -/
def flatBar : Bar := flatPB 100 1000

/-- A 55-bar flat series: longer than 50 bars but shorter than 60. -/
def flat55 : List Bar := List.replicate 55 flatBar

/-- The 60-bar flat series of the end-to-end example. -/
def flat60 : List Bar := List.replicate 60 flatBar

/-- A bar with every OHLCV field defined and the validity constraints of the
OHLCV data model: High at least Low, High at least Open and Close, Low at most
Open and Close, Volume nonnegative. -/
def validB (b : Bar) : Bool :=
  match b.Open, b.High, b.Low, b.Close, b.Volume with
  | some o, some h, some l, some c, some v =>
    decide (l ≤ h) && decide (o ≤ h) && decide (c ≤ h) &&
    decide (l ≤ o) && decide (l ≤ c) && decide (0 ≤ v)
  | _, _, _, _, _ => false

/-- Whether the Low of a bar is defined and nonnegative. -/
def lowNonnegB (b : Bar) : Bool :=
  match b.Low with
  | some l => decide (0 ≤ l)
  | none => false

/-- Fourteen bars that satisfy every constraint of `validB` while carrying
negative prices: flat bars, one typical-price rise onto a negative price with
volume 1, one typical-price fall onto a positive price with volume 1, volume 0
elsewhere. -/
def mfiBad : List Bar :=
  [flatPB (-30) 0, flatPB (-10) 1, flatPB 20 0, flatPB 5 1] ++
    List.replicate 10 (flatPB 5 0)

/-- Twenty valid bars with nonnegative prices on which both the CMF and the
MFI of the last row are defined. -/
def boundsW : List Bar :=
  List.replicate 16 (flatPB 1 1) ++ [flatPB 2 1, flatPB 2 1, flatPB 1 1, flatPB 1 1]

/-- A bar whose Close is NaN, as delivered for a not-yet-closed trading day. -/
def nanCloseBar : Bar := ⟨some 1, some 1, some 1, none, some 1⟩

/-- Fifty bars whose Close is defined: flat at 100, then a final bar at
110. -/
def good50 : List Bar := List.replicate 49 flatBar ++ [flatPB 110 1000]

/-- The same series with two trailing NaN-Close bars appended, as delivered
when the feed carries two not-yet-closed rows. -/
def badTail : List Bar := good50 ++ [nanCloseBar, nanCloseBar]

/-- Claim C1: per bar (with a preceding bar), the classifier of lines 99-112
labels SELL when any of Close < EMA_21, MACD_Hist < 0, CMF < -0.2 holds;
otherwise BUY when all of Close > EMA_8, EMA_8 > EMA_21, MACD_Hist > 0,
MACD_Hist above its previous value, CMF > -0.05 hold; otherwise HOLD — and
whenever a SELL disjunct holds the label is SELL regardless of the BUY pass,
so SELL strictly dominates. -/
theorem signal_rule_order (c e8 e21 h hp cm : ℚ) :
    (signalOf (some c) (some e8) (some e21) (some h) (some hp) (some cm) =
      if c < e21 ∨ h < 0 ∨ cm < -(1 / 5) then "SELL"
      else if c > e8 ∧ e8 > e21 ∧ h > 0 ∧ h > hp ∧ cm > -(1 / 20) then "BUY"
      else "HOLD")
    ∧ ((c < e21 ∨ h < 0 ∨ cm < -(1 / 5)) →
      signalOf (some c) (some e8) (some e21) (some h) (some hp) (some cm) = "SELL") := by
  constructor
  · simp only [signalOf, oGtB, oLtB, Bool.or_eq_true, Bool.and_eq_true,
      decide_eq_true_eq, gt_iff_lt]
    split_ifs <;> tauto
  · intro hs
    simp only [signalOf, oGtB, oLtB, Bool.or_eq_true, Bool.and_eq_true,
      decide_eq_true_eq]
    split_ifs <;> tauto

/-- Witness for C1: a bar below its EMA_21 is labeled SELL. -/
theorem signal_rule_order_witness :
    ((1 : ℚ) < 2 ∨ (1 : ℚ) < 0 ∨ (0 : ℚ) < -(1 / 5)) ∧
      signalOf (some 1) (some 3) (some 2) (some 1) (some 0) (some 0) = "SELL" :=
  ⟨Or.inl (by norm_num),
    (signal_rule_order 1 3 2 1 0 0).2 (Or.inl (by norm_num))⟩

/-- Claim C2: on fewer than 50 bars the engine returns the declared
"數據不足" error together with the input frame exactly as given — no
forward-fill, no derived columns, and no exception path exists. -/
theorem cti_insufficient_data (df : List Bar) (m : ℚ) (h : df.length < 50) :
    calculate_technical_indicators df m = CTIResult.err df "數據不足" := by
  simp [calculate_technical_indicators, h]

/-- Witness for C2: the 10-bar flat frame. -/
theorem cti_insufficient_data_witness :
    (List.replicate 10 flatBar).length < 50 ∧
      calculate_technical_indicators (List.replicate 10 flatBar) 1 =
        CTIResult.err (List.replicate 10 flatBar) "數據不足" :=
  ⟨by decide, cti_insufficient_data (List.replicate 10 flatBar) 1 (by decide)⟩

set_option maxRecDepth 4000 in
/-- Counterexample to claim C3: a 55-bar series has fewer than 60 bars, yet
`calculate_technical_indicators` does not return the insufficient-data error;
it executes the rule evaluation and assigns a signal label to the last bar. -/
theorem classifier_runs_below_60 :
    flat55.length < 60 ∧
      (calculate_technical_indicators flat55 (5 / 2)).isOk = true ∧
      ((calculate_technical_indicators flat55 (5 / 2)).rows.getLast?).map IndRow.Signal =
        some "HOLD" :=
  ⟨by decide, by decide, by with_unfolding_all rfl⟩

/-- Claim C3 as amended: the insufficient-data threshold of the code is 50
bars, not 60 — below 50 bars the frame is returned with the declared error
and no rule evaluation, from 50 bars on the enrichment and rule evaluation
run. -/
theorem cti_threshold_is_50 (df : List Bar) (m : ℚ) :
    (df.length < 50 → calculate_technical_indicators df m = CTIResult.err df "數據不足")
    ∧ (50 ≤ df.length → (calculate_technical_indicators df m).isOk = true) := by
  constructor
  · intro h
    simp [calculate_technical_indicators, h]
  · intro h
    simp [calculate_technical_indicators, Nat.not_lt.mpr h, CTIResult.isOk]

/-- Witness for the amended C3: a 49-bar frame errs. -/
theorem cti_threshold_is_50_witness :
    (List.replicate 49 flatBar).length < 50 ∧
      calculate_technical_indicators (List.replicate 49 flatBar) 1 =
        CTIResult.err (List.replicate 49 flatBar) "數據不足" :=
  ⟨by decide, (cti_threshold_is_50 (List.replicate 49 flatBar) 1).1 (by decide)⟩

/-- Claim C6: the volume ratio of line 135 is Volume / VolumeSMA when the SMA
is positive, and exactly 1.0 when the SMA is zero or undefined, so the
division is guarded. -/
theorem vol_ratio_guarded (v : Cell) (s : ℚ) :
    (0 < s → volRatio v (some s) = oDiv v (some s))
    ∧ volRatio v (some 0) = some 1
    ∧ volRatio v none = some 1 := by
  refine ⟨fun hs => ?_, ?_, ?_⟩
  · simp [volRatio, oGtB, oLtB, hs]
  · simp [volRatio, oGtB, oLtB]
  · simp [volRatio, oGtB, oLtB]

/-- Witness for C6: SMA 4, volume 2. -/
theorem vol_ratio_guarded_witness :
    (0 : ℚ) < 4 ∧ volRatio (some 2) (some 4) = oDiv (some 2) (some 4) :=
  ⟨by norm_num, (vol_ratio_guarded (some 2) 4).1 (by norm_num)⟩

/-- Claim C8: in the batch scan, a ticker whose loop body fails (missing
data, empty frame, insufficient data, or a swallowed exception) contributes
to no bucket while the rest of the batch is processed unchanged, and a ticker
whose loop body succeeds lands in exactly the one bucket chosen for it. -/
theorem scan_isolation (fetch : String → Option (List Bar)) (m : ℚ)
    (t : String) (ts : List String) :
    (processTicker fetch m t = none →
      scan_market_summary (t :: ts) fetch m = scan_market_summary ts fetch m)
    ∧ (∀ b d, processTicker fetch m t = some (b, d) →
      scan_market_summary (t :: ts) fetch m =
        addToBucket b d (scan_market_summary ts fetch m)) := by
  constructor
  · intro hn
    simp [scan_market_summary, List.filterMap_cons, hn]
  · intro b d hs
    cases b <;> simp [scan_market_summary, List.filterMap_cons, hs, addToBucket]

/-- Witness for C8: a ticker with no downloaded data is omitted and the rest
of the batch result is unchanged. -/
theorem scan_isolation_witness :
    processTicker (fun _ => none) 1 "AAPL" = none ∧
      scan_market_summary ["AAPL"] (fun _ => none) 1 =
        scan_market_summary [] (fun _ => none) 1 :=
  ⟨rfl, (scan_isolation (fun _ => none) 1 "AAPL" []).1 rfl⟩

set_option maxRecDepth 4000 in
/-- Counterexample to claim C10: a frame ending in two NaN-Close bars.  The
most recently fetched bar has an undefined Close, yet lines 123-125 and
152-154 drop only that one row, the frame handed to indicator computation
still ends in a NaN-Close bar (its Close forward-filled by line 75), and the
latest flow data differs from that of the series ending at the last bar whose
Close is defined: the last MFI is 100 there but 515625/5158 here, so the
latest values are not always derived from the last defined-Close bar. -/
theorem trailing_nan_persists :
    badTail = good50 ++ [nanCloseBar, nanCloseBar]
    ∧ (badTail.getLast?).map Bar.Close = some none
    ∧ (good50.getLast?).map Bar.Close = some (some 110)
    ∧ ((dropLastIfNaN badTail).getLast?).map Bar.Close = some none
    ∧ (gaLastRow (get_analysis_data good50 1)).map IndRow.MFI = some (some 100)
    ∧ (gaLastRow (get_analysis_data badTail 1)).map IndRow.MFI =
        some (some (515625 / 5158))
    ∧ (515625 / 5158 : ℚ) ≠ 100 :=
  ⟨rfl, by decide, by decide, by decide, by with_unfolding_all rfl,
    by with_unfolding_all rfl, by norm_num⟩

/-- Claim C10 as amended: when the most recently fetched bar has an undefined
Close, both the single-ticker path and the batch loop body drop exactly that
one trailing bar before indicator computation; provided the bar before it has
a defined Close, each therefore computes on the series ending at the last bar
whose Close is defined.  (With two or more trailing undefined Closes only one
row is dropped and the remaining trailing Close is forward-filled instead, as
the counterexample shows.) -/
theorem trailing_nan_dropped (pre : List Bar) (b : Bar) (m : ℚ)
    (hb : b.Close = none)
    (hpre : ∀ x ∈ pre.getLast?, x.Close ≠ none) :
    dropLastIfNaN (pre ++ [b]) = pre
    ∧ get_analysis_data (pre ++ [b]) m = get_analysis_data pre m
    ∧ ∀ t, processTicker (fun _ => some (pre ++ [b])) m t =
        processTicker (fun _ => some pre) m t := by
  have hdrop : dropLastIfNaN (pre ++ [b]) = pre := by
    simp [dropLastIfNaN, List.getLast?_concat, hb]
  have hkeep : dropLastIfNaN pre = pre := by
    unfold dropLastIfNaN
    cases hl : pre.getLast? with
    | none => rfl
    | some x =>
      have hx : x.Close ≠ none := hpre x (by simp [hl])
      simp [hx]
  refine ⟨hdrop, ?_, fun t => ?_⟩
  · simp only [get_analysis_data, hdrop, hkeep]
  · simp only [processTicker, hdrop, hkeep]

/-- Witness for C10: a defined-Close bar followed by a NaN-Close bar. -/
theorem trailing_nan_dropped_witness :
    nanCloseBar.Close = none ∧
      dropLastIfNaN ([flatPB 1 1] ++ [nanCloseBar]) = [flatPB 1 1] :=
  ⟨rfl,
    (trailing_nan_dropped [flatPB 1 1] nanCloseBar 1 rfl
      (fun x hx => by
        rw [show ([flatPB 1 1].getLast?) = some (flatPB 1 1) from rfl,
          Option.mem_some_iff] at hx
        subst hx
        simp [flatPB])).1⟩

set_option maxRecDepth 8000 in
/-- Claim C9: on the 60-bar flat series (price 100, volume 1000) the pipeline
yields MACD_Hist = 0 and CMF = 0 on the latest bar, the volume ratio of the
flow payload is exactly 1, and the latest bar is classified HOLD. -/
theorem flat60_end_to_end :
    (gaLastRow (get_analysis_data flat60 (5 / 2))).map
        (fun r => (r.MACD_Hist, r.CMF, r.Signal)) = some (some 0, some 0, "HOLD")
    ∧ (gaFlow (get_analysis_data flat60 (5 / 2))).map FlowData.Vol_Ratio =
        some (some 1) := by
  constructor
  · with_unfolding_all rfl
  · with_unfolding_all rfl

/-- Replacing the entries under an existing key makes lookup return the new
record. -/
theorem findKey_map_replace (s : SnapshotStore) (t : String) (r : SnapshotRecord)
    (h : s.any (fun kv => kv.1 == t) = true) :
    (s.map (fun kv => if kv.1 == t then (t, r) else kv)).find?
      (fun kv => kv.1 == t) = some (t, r) := by
  induction s with
  | nil => simp at h
  | cons kv s ih =>
    rw [List.map_cons]
    by_cases hk : kv.1 = t
    · rw [show (if kv.1 == t then (t, r) else kv) = (t, r) by simp [hk]]
      exact List.find?_cons_of_pos _ (by simp)
    · rw [show (if kv.1 == t then (t, r) else kv) = kv by simp [hk]]
      have h' : s.any (fun kv => kv.1 == t) = true := by
        rcases List.any_eq_true.mp h with ⟨x, hx, hxt⟩
        rcases List.mem_cons.mp hx with e | hxs
        · subst e
          exact absurd (eq_of_beq hxt) hk
        · exact List.any_eq_true.mpr ⟨x, hxs, hxt⟩
      rw [List.find?_cons_of_neg _ (by simp [hk]), ih h']

/-- Appending a fresh key makes lookup return the appended record. -/
theorem findKey_append_single (s : SnapshotStore) (t : String) (r : SnapshotRecord)
    (h : s.any (fun kv => kv.1 == t) = false) :
    (s ++ [(t, r)]).find? (fun kv => kv.1 == t) = some (t, r) := by
  induction s with
  | nil => simp
  | cons kv s ih =>
    simp only [List.any_cons, Bool.or_eq_false_iff] at h
    rw [List.cons_append, List.find?_cons_of_neg _ (by simp [h.1]), ih h.2]

/-- Lookup after a JSON key update returns the written record. -/
theorem load_dictInsert (s : SnapshotStore) (t : String) (r : SnapshotRecord) :
    load_snapshot (dictInsert s t r) t = some r := by
  unfold load_snapshot dictInsert
  by_cases h : s.any (fun kv => kv.1 == t) = true
  · rw [if_pos h, findKey_map_replace s t r h]
    rfl
  · rw [Bool.not_eq_true] at h
    rw [if_neg (by rw [h]; exact Bool.false_ne_true), findKey_append_single s t r h]
    rfl

/-- A key that no entry carries is stored zero times. -/
theorem countKey_eq_zero_of_any_false (s : SnapshotStore) (t : String)
    (h : s.any (fun kv => kv.1 == t) = false) : countKey s t = 0 := by
  induction s with
  | nil => rfl
  | cons kv s ih =>
    simp only [List.any_cons, Bool.or_eq_false_iff] at h
    have ih' := ih h.2
    simp only [countKey, List.filter_cons] at ih' ⊢
    rw [h.1]
    exact ih'

/-- Under unique keys every key is stored at most once. -/
theorem countKey_le_one_of_nodup (s : SnapshotStore) (t : String)
    (h : (s.map Prod.fst).Nodup) : countKey s t ≤ 1 := by
  induction s with
  | nil => simp [countKey]
  | cons kv s ih =>
    simp only [List.map_cons, List.nodup_cons] at h
    by_cases hk : (kv.1 == t) = true
    · have hz : countKey s t = 0 := by
        apply countKey_eq_zero_of_any_false
        by_contra hny
        rw [Bool.not_eq_false, List.any_eq_true] at hny
        obtain ⟨x, hxs, hxt⟩ := hny
        have hmem : kv.1 ∈ List.map Prod.fst s := by
          rw [eq_of_beq hk, ← eq_of_beq hxt]
          exact List.mem_map_of_mem Prod.fst hxs
        exact h.1 hmem
      simp only [countKey, List.filter_cons] at hz ⊢
      rw [hk]
      simp only [if_true, List.length_cons, hz]
      omega
    · have ih' := ih h.2
      simp only [countKey, List.filter_cons] at ih' ⊢
      rw [Bool.not_eq_true] at hk
      rw [hk]
      simpa using ih'

/-- A key that some entry carries is stored at least once. -/
theorem countKey_pos_of_mem (s : SnapshotStore) (t : String)
    (x : String × SnapshotRecord) (hx : x ∈ s) (hxt : (x.1 == t) = true) :
    1 ≤ countKey s t :=
  List.length_pos_of_mem (List.mem_filter.mpr ⟨hx, hxt⟩)

/-- A JSON key update preserves the number of entries under the written key. -/
theorem countKey_map_replace (s : SnapshotStore) (t : String) (r : SnapshotRecord) :
    countKey (s.map (fun kv => if kv.1 == t then (t, r) else kv)) t = countKey s t := by
  induction s with
  | nil => rfl
  | cons kv s ih =>
    simp only [countKey, List.map_cons, List.filter_cons] at ih ⊢
    by_cases hk : (kv.1 == t) = true
    · rw [show (if (kv.1 == t) = true then (t, r) else kv) = (t, r) by rw [if_pos hk]]
      rw [hk, show ((t, r).1 == t) = true by simp]
      simp only [if_true, List.length_cons]
      omega
    · rw [show (if (kv.1 == t) = true then (t, r) else kv) = kv by rw [if_neg hk]]
      rw [Bool.not_eq_true] at hk
      rw [hk]
      simpa using ih

/-- After a JSON key update of a store with unique keys, the key is stored
exactly once. -/
theorem countKey_dictInsert (s : SnapshotStore) (t : String) (r : SnapshotRecord)
    (h : (s.map Prod.fst).Nodup) : countKey (dictInsert s t r) t = 1 := by
  unfold dictInsert
  by_cases ha : s.any (fun kv => kv.1 == t) = true
  · rw [if_pos ha, countKey_map_replace]
    rcases List.any_eq_true.mp ha with ⟨x, hx, hxt⟩
    have h1 := countKey_pos_of_mem s t x hx hxt
    have h2 := countKey_le_one_of_nodup s t h
    omega
  · rw [Bool.not_eq_true] at ha
    have h0 : countKey s t = 0 := countKey_eq_zero_of_any_false s t ha
    rw [if_neg (by rw [ha]; exact Bool.false_ne_true)]
    simp only [countKey, List.filter_append, List.length_append] at h0 ⊢
    rw [h0, List.filter_cons, show ((t, r).1 == t) = true by simp]
    rfl

/-- Claim C4: under the close-window guard, a record already carrying the
current trading date suppresses the write entirely; running the guarded write
path twice on the same trading date performs the write at most once and leaves
exactly one record stored under the ticker; a stored record is overwritten
only when its date differs from the current trading date. -/
theorem snapshot_once_per_day (store : SnapshotStore) (t today ts ts2 : String)
    (p p2 : Cell) (f f2 : FlowData)
    (hkeys : (store.map Prod.fst).Nodup) :
    (∀ r, load_snapshot store t = some r → r.date = today →
      snapshotGuardStep store t today today ts p f = store)
    ∧ snapshotGuardStep (snapshotGuardStep store t today today ts p f) t today
        today ts2 p2 f2 = snapshotGuardStep store t today today ts p f
    ∧ countKey (snapshotGuardStep store t today today ts p f) t = 1 := by
  have part1 : ∀ (ts' : String) (p' : Cell) (f' : FlowData) (r : SnapshotRecord),
      load_snapshot store t = some r → r.date = today →
      snapshotGuardStep store t today today ts' p' f' = store := by
    intro ts' p' f' r hr hdate
    simp [snapshotGuardStep, hr, hdate]
  refine ⟨part1 ts p f, ?_⟩
  cases hload : load_snapshot store t with
  | none =>
    have hstep : snapshotGuardStep store t today today ts p f =
        dictInsert store t ⟨today, ts, p, f⟩ := by
      simp [snapshotGuardStep, hload, save_snapshot]
    refine ⟨?_, ?_⟩
    · rw [hstep]
      have hl2 := load_dictInsert store t ⟨today, ts, p, f⟩
      simp [snapshotGuardStep, hl2]
    · rw [hstep]
      exact countKey_dictInsert store t _ hkeys
  | some r =>
    by_cases hd : r.date = today
    · have hstep := part1 ts p f r hload hd
      refine ⟨?_, ?_⟩
      · rw [hstep]
        exact part1 ts2 p2 f2 r hload hd
      · rw [hstep]
        rcases Option.map_eq_some'.mp hload with ⟨kv, hfind, hsnd⟩
        have hp := List.find?_some hfind
        have h1 := countKey_pos_of_mem store t kv (List.mem_of_find?_eq_some hfind) hp
        have h2 := countKey_le_one_of_nodup store t hkeys
        omega
    · have hstep : snapshotGuardStep store t today today ts p f =
          dictInsert store t ⟨today, ts, p, f⟩ := by
        simp [snapshotGuardStep, hload, save_snapshot, hd]
      refine ⟨?_, ?_⟩
      · rw [hstep]
        have hl2 := load_dictInsert store t ⟨today, ts, p, f⟩
        simp [snapshotGuardStep, hl2]
      · rw [hstep]
        exact countKey_dictInsert store t _ hkeys

/-- Witness for C4: writing into an empty store leaves one record. -/
theorem snapshot_once_per_day_witness :
    (([] : SnapshotStore).map Prod.fst).Nodup ∧
      countKey (snapshotGuardStep [] "NVDA" "2026-10-10" "2026-10-10"
        "2026-10-10 16:00:00" none ⟨none, none, none⟩) "NVDA" = 1 :=
  ⟨List.nodup_nil,
    (snapshot_once_per_day [] "NVDA" "2026-10-10" "2026-10-10 16:00:00" "x" none none
      ⟨none, none, none⟩ ⟨none, none, none⟩ List.nodup_nil).2.2⟩

/-- A prefix of the forward-filled frame is the forward-fill of the prefix:
entry i only reads raw bars at indices at most i. -/
theorem ffillBars_take (df : List Bar) (k : ℕ) :
    (ffillBars df).take k = ffillBars (df.take k) := by
  unfold ffillBars
  rw [← List.map_take, List.take_range, List.length_take]
  apply List.map_congr_left
  intro i hi
  rw [List.mem_range] at hi
  have hik : i + 1 ≤ k := by omega
  rw [List.take_take, Nat.min_eq_left hik]

/-- Entry i of the enriched frame is the row computed from the first i + 1
forward-filled bars. -/
theorem computeIndicators_getElem (df : List Bar) (m : ℚ) (i : ℕ)
    (h : i < df.length) :
    (computeIndicators df m)[i]? = some (rowAt ((ffillBars df).take (i + 1)) m) := by
  unfold computeIndicators
  have hlen : (ffillBars df).length = df.length := by
    unfold ffillBars
    simp
  rw [List.getElem?_map, List.getElem?_range (by omega), Option.map_some']

/-- Claim C5: the pipeline is causal — two inputs agreeing on all bars up to
index i get identical enriched rows at index i (every derived column included),
so no derived value at index i depends on later bars. -/
theorem pipeline_causal (df1 df2 : List Bar) (m : ℚ) (i : ℕ)
    (hpre : df1.take (i + 1) = df2.take (i + 1)) (h1 : i < df1.length) :
    (computeIndicators df1 m)[i]? = (computeIndicators df2 m)[i]? := by
  have hlen : i < df2.length := by
    have hl := congrArg List.length hpre
    simp only [List.length_take] at hl
    omega
  rw [computeIndicators_getElem df1 m i h1, computeIndicators_getElem df2 m i hlen,
    ffillBars_take, ffillBars_take, hpre]

/-- Witness for C5: two frames agreeing on their first two bars have the same
enriched row at index 1. -/
theorem pipeline_causal_witness :
    ([flatBar, flatBar] : List Bar).take 2 = [flatBar, flatBar, flatPB 5 1].take 2 ∧
      (computeIndicators [flatBar, flatBar] 1)[1]? =
        (computeIndicators [flatBar, flatBar, flatPB 5 1] 1)[1]? :=
  ⟨rfl,
    pipeline_causal [flatBar, flatBar] [flatBar, flatBar, flatPB 5 1] 1 1 rfl
      (by decide)⟩

set_option maxRecDepth 2000 in
/-- Counterexample to claim C7: fourteen bars meeting every stated validity
constraint (High at least Low, High at least Open and Close, Low at most Open
and Close, Volume nonnegative) on which the MFI of the last row is defined and
equals 200, outside [0, 100] — the stated constraints allow negative prices,
and a negative positive-flow sum drives the ratio above 100. -/
theorem mfi_out_of_bounds :
    mfiBad.all validB = true ∧ mfiBad.length = 14 ∧
      ((computeIndicators mfiBad 1)[13]?).bind IndRow.MFI = some 200 ∧
      ¬((200 : ℚ) ≤ 100) :=
  ⟨by decide, by decide, by with_unfolding_all rfl, by norm_num⟩

/-- An element of a zipWith image comes from elements of the two lists. -/
theorem mem_zipWith_elim {α β γ : Type} (f : α → β → γ) (as : List α)
    (bs : List β) (y : γ) (hy : y ∈ List.zipWith f as bs) :
    ∃ a ∈ as, ∃ b ∈ bs, y = f a b := by
  induction as generalizing bs with
  | nil => simp at hy
  | cons a as ih =>
    cases bs with
    | nil => simp at hy
    | cons b bs =>
      rw [List.zipWith_cons_cons] at hy
      rcases List.mem_cons.mp hy with e | h2
      · exact ⟨a, List.mem_cons_self a as, b, List.mem_cons_self b bs, e⟩
      · obtain ⟨x, hx, z, hz, e⟩ := ih bs h2
        exact ⟨x, List.mem_cons_of_mem a hx, z, List.mem_cons_of_mem b hz, e⟩

/-- Unpacking a bar that passes `validB`. -/
theorem validB_elim (b : Bar) (hb : validB b = true) :
    ∃ o hi lo c v : ℚ, b = ⟨some o, some hi, some lo, some c, some v⟩ ∧
      lo ≤ hi ∧ o ≤ hi ∧ c ≤ hi ∧ lo ≤ o ∧ lo ≤ c ∧ 0 ≤ v := by
  obtain ⟨O, H, L, C, V⟩ := b
  cases O with
  | none => simp [validB] at hb
  | some o =>
  cases H with
  | none => simp [validB] at hb
  | some hi =>
  cases L with
  | none => simp [validB] at hb
  | some lo =>
  cases C with
  | none => simp [validB] at hb
  | some c =>
  cases V with
  | none => simp [validB] at hb
  | some v =>
  refine ⟨o, hi, lo, c, v, rfl, ?_⟩
  simp only [validB, Bool.and_eq_true, decide_eq_true_eq] at hb
  exact ⟨hb.1.1.1.1.1, hb.1.1.1.1.2, hb.1.1.1.2, hb.1.1.2, hb.1.2, hb.2⟩

/-- The money flow volume of a valid bar is defined and bounded in absolute
value by the volume of the bar. -/
theorem mfvBar_bound (b : Bar) (hb : validB b = true) :
    ∃ mv v : ℚ, mfvBar b = some mv ∧ b.Volume = some v ∧ |mv| ≤ v := by
  obtain ⟨o, hi, lo, c, v, rfl, hlh, hoh, hch, hlo, hlc, hv⟩ := validB_elim b hb
  by_cases he : hi = lo
  · exact ⟨0, v, by simp [mfvBar, he], rfl, by simpa using hv⟩
  · have hlt : lo < hi := lt_of_le_of_ne hlh (fun e => he e.symm)
    have hd : 0 < hi - lo := by linarith
    refine ⟨((c - lo) - (hi - c)) / (hi - lo) * v, v, by simp [mfvBar, he], rfl, ?_⟩
    have habs : |(c - lo) - (hi - c)| ≤ hi - lo := by
      rw [abs_le]
      constructor <;> linarith
    have hdivle : |((c - lo) - (hi - c)) / (hi - lo)| ≤ 1 := by
      rw [abs_div, abs_of_pos hd]
      exact (div_le_one hd).mpr habs
    calc |((c - lo) - (hi - c)) / (hi - lo) * v|
        = |((c - lo) - (hi - c)) / (hi - lo)| * v := by
          rw [abs_mul, abs_of_nonneg hv]
      _ ≤ 1 * v := mul_le_mul_of_nonneg_right hdivle hv
      _ = v := one_mul v

/-- The summed money flow volume of a window of valid bars is bounded in
absolute value by the summed volume. -/
theorem mfv_window_bound (l : List Bar) (hv : ∀ b ∈ l, validB b = true) :
    |((l.map mfvBar).filterMap id).sum| ≤ ((l.map Bar.Volume).filterMap id).sum := by
  induction l with
  | nil => simp
  | cons b l ih =>
    obtain ⟨mv, v, hmv, hvol, hle⟩ := mfvBar_bound b (hv b (List.mem_cons_self b l))
    have ih' := ih (fun x hx => hv x (List.mem_cons_of_mem b hx))
    simp only [List.map_cons, List.filterMap_cons, hmv, hvol, id_eq, List.sum_cons]
    calc |mv + ((l.map mfvBar).filterMap id).sum|
        ≤ |mv| + |((l.map mfvBar).filterMap id).sum| := abs_add _ _
      _ ≤ v + ((l.map Bar.Volume).filterMap id).sum := add_le_add hle ih'

/-- The summed volume of a window of valid bars is nonnegative. -/
theorem vol_window_nonneg (l : List Bar) (hv : ∀ b ∈ l, validB b = true) :
    0 ≤ ((l.map Bar.Volume).filterMap id).sum := by
  induction l with
  | nil => simp
  | cons b l ih =>
    obtain ⟨mv, v, hmv, hvol, hle⟩ := mfvBar_bound b (hv b (List.mem_cons_self b l))
    have ih' := ih (fun x hx => hv x (List.mem_cons_of_mem b hx))
    simp only [List.map_cons, List.filterMap_cons, hvol, id_eq, List.sum_cons]
    exact add_nonneg (le_trans (abs_nonneg mv) hle) ih'

/-- The trailing window of a mapped column is the mapped trailing window. -/
theorem windowLast_map {α : Type} (f : α → Cell) (n : ℕ) (l : List α) :
    windowLast n (l.map f) = (l.drop (l.length - n)).map f := by
  unfold windowLast
  rw [List.length_map, List.map_drop]

/-- A defined CMF value of a window of valid bars lies in [-1, 1]. -/
theorem cmfLast_bound (p : List Bar) (hv : ∀ b ∈ p, validB b = true) (q : ℚ)
    (hq : cmfLast p = some q) : -1 ≤ q ∧ q ≤ 1 := by
  unfold cmfLast at hq
  cases hnum : rollSumLast 20 (p.map mfvBar) with
  | none => rw [hnum] at hq; exact absurd hq (by simp [oDiv])
  | some a =>
  cases hden : rollSumLast 20 (p.map Bar.Volume) with
  | none => rw [hnum, hden] at hq; exact absurd hq (by simp [oDiv])
  | some s =>
  rw [hnum, hden] at hq
  simp only [oDiv] at hq
  by_cases hs0 : s = 0
  · rw [if_pos hs0] at hq
    exact absurd hq (by simp)
  · rw [if_neg hs0] at hq
    have hq' : q = a / s := (Option.some_inj.mp hq).symm
    simp only [rollSumLast, windowLast_map] at hnum hden
    have hvw : ∀ b ∈ p.drop (p.length - 20), validB b = true :=
      fun b hb => hv b (List.drop_subset _ p hb)
    have ha : a = (((p.drop (p.length - 20)).map mfvBar).filterMap id).sum := by
      by_cases hc : 20 ≤ (((p.drop (p.length - 20)).map mfvBar).filterMap id).length
      · rw [if_pos hc] at hnum
        exact (Option.some_inj.mp hnum).symm
      · rw [if_neg hc] at hnum
        exact absurd hnum (by simp)
    have hs : s = (((p.drop (p.length - 20)).map Bar.Volume).filterMap id).sum := by
      by_cases hc : 20 ≤ (((p.drop (p.length - 20)).map Bar.Volume).filterMap id).length
      · rw [if_pos hc] at hden
        exact (Option.some_inj.mp hden).symm
      · rw [if_neg hc] at hden
        exact absurd hden (by simp)
    have hbound : |a| ≤ s := by
      rw [ha, hs]
      exact mfv_window_bound _ hvw
    have hsnn : 0 ≤ s := by
      rw [hs]
      exact vol_window_nonneg _ hvw
    have hspos : 0 < s := lt_of_le_of_ne hsnn (fun e => hs0 e.symm)
    have habs : |q| ≤ 1 := by
      rw [hq', abs_div, abs_of_pos hspos]
      exact (div_le_one hspos).mpr hbound
    exact abs_le.mp habs

/-- Unpacking a bar that also passes `lowNonnegB`: its typical price is
defined and nonnegative, as is its volume. -/
theorem typPrice_nonneg (b : Bar) (hb : validB b = true)
    (hlow : lowNonnegB b = true) :
    ∃ tp v : ℚ, typPrice b = some tp ∧ b.Volume = some v ∧ 0 ≤ tp ∧ 0 ≤ v := by
  obtain ⟨o, hi, lo, c, v, rfl, hlh, hoh, hch, hlo, hlc, hv⟩ := validB_elim b hb
  simp only [lowNonnegB, decide_eq_true_eq] at hlow
  refine ⟨(hi + lo + c) / 3, v, by simp [typPrice], rfl, ?_, hv⟩
  have h1 : 0 ≤ hi := le_trans hlow hlh
  have h2 : 0 ≤ c := le_trans hlow hlc
  positivity

/-- Every entry of the positive money-flow column of a window of valid bars
with nonnegative lows is defined and nonnegative. -/
theorem posFlows_nonneg (p : List Bar) (hv : ∀ b ∈ p, validB b = true)
    (hlow : ∀ b ∈ p, lowNonnegB b = true) :
    ∀ y ∈ posFlows p, ∃ x : ℚ, y = some x ∧ 0 ≤ x := by
  intro y hy
  unfold posFlows at hy
  obtain ⟨b, hb, pt, _, rfl⟩ := mem_zipWith_elim _ p (prevList (p.map typPrice)) y hy
  by_cases hs : flowSign (typPrice b) pt = 1
  · obtain ⟨tp, v, htp, hvol, htpn, hvn⟩ := typPrice_nonneg b (hv b hb) (hlow b hb)
    refine ⟨tp * v, ?_, mul_nonneg htpn hvn⟩
    have hr : rawMF b = some (tp * v) := by
      simp [rawMF, htp, hvol, oMul]
    rw [if_pos hs, hr]
  · exact ⟨0, by simp [hs], le_refl 0⟩

/-- Every entry of the negative money-flow column of a window of valid bars
with nonnegative lows is defined and nonnegative. -/
theorem negFlows_nonneg (p : List Bar) (hv : ∀ b ∈ p, validB b = true)
    (hlow : ∀ b ∈ p, lowNonnegB b = true) :
    ∀ y ∈ negFlows p, ∃ x : ℚ, y = some x ∧ 0 ≤ x := by
  intro y hy
  unfold negFlows at hy
  obtain ⟨b, hb, pt, _, rfl⟩ := mem_zipWith_elim _ p (prevList (p.map typPrice)) y hy
  by_cases hs : flowSign (typPrice b) pt = -1
  · obtain ⟨tp, v, htp, hvol, htpn, hvn⟩ := typPrice_nonneg b (hv b hb) (hlow b hb)
    refine ⟨tp * v, ?_, mul_nonneg htpn hvn⟩
    have hr : rawMF b = some (tp * v) := by
      simp [rawMF, htp, hvol, oMul]
    rw [if_pos hs, hr]
  · exact ⟨0, by simp [hs], le_refl 0⟩

/-- A defined rolling sum of a column of defined nonnegative entries is
nonnegative. -/
theorem rollSumLast_nonneg (n : ℕ) (xs : List Cell)
    (h : ∀ y ∈ xs, ∃ x : ℚ, y = some x ∧ 0 ≤ x) (a : ℚ)
    (ha : rollSumLast n xs = some a) : 0 ≤ a := by
  simp only [rollSumLast] at ha
  by_cases hc : n ≤ ((windowLast n xs).filterMap id).length
  · rw [if_pos hc] at ha
    rw [← Option.some_inj.mp ha]
    apply List.sum_nonneg
    intro x hx
    obtain ⟨y, hyw, hyx⟩ := List.mem_filterMap.mp hx
    have hyxs : y ∈ xs := List.drop_subset _ xs hyw
    obtain ⟨x', he, hx'⟩ := h y hyxs
    rw [he] at hyx
    simp only [id_eq, Option.some_inj] at hyx
    rw [← hyx]
    exact hx'
  · rw [if_neg hc] at ha
    exact absurd ha (by simp)

/-- A defined MFI value of a window of valid bars with nonnegative lows lies
in [0, 100]. -/
theorem mfiLast_bound (p : List Bar) (hv : ∀ b ∈ p, validB b = true)
    (hlow : ∀ b ∈ p, lowNonnegB b = true) (q : ℚ) (hq : mfiLast p = some q) :
    0 ≤ q ∧ q ≤ 100 := by
  unfold mfiLast at hq
  cases hP : rollSumLast 14 (posFlows p) with
  | none => rw [hP] at hq; exact absurd hq (by simp [oMul, oAdd, oDiv])
  | some a =>
  cases hN : rollSumLast 14 (negFlows p) with
  | none => rw [hP, hN] at hq; exact absurd hq (by simp [oMul, oAdd, oDiv])
  | some b =>
  rw [hP, hN] at hq
  simp only [oMul, oAdd, oDiv] at hq
  by_cases hs0 : a + b = 0
  · rw [if_pos hs0] at hq
    exact absurd hq (by simp)
  · rw [if_neg hs0] at hq
    have hq' : q = 100 * a / (a + b) := (Option.some_inj.mp hq).symm
    have han : 0 ≤ a := rollSumLast_nonneg 14 (posFlows p) (posFlows_nonneg p hv hlow) a hP
    have hbn : 0 ≤ b := rollSumLast_nonneg 14 (negFlows p) (negFlows_nonneg p hv hlow) b hN
    have hpos : 0 < a + b := lt_of_le_of_ne (add_nonneg han hbn) (fun e => hs0 e.symm)
    constructor
    · rw [hq']
      exact div_nonneg (by linarith) (le_of_lt hpos)
    · rw [hq', div_le_iff₀ hpos]
      linarith

/-- Forward-fill keeps a column entry that is itself defined. -/
theorem ffillLast_concat (xs : List Cell) (y : Cell) (hy : y.isSome) :
    ffillLast (xs ++ [y]) = y := by
  cases y with
  | none => simp at hy
  | some v =>
    unfold ffillLast
    rw [List.foldl_append]
    rfl

/-- Forward-fill leaves a frame of fully defined bars unchanged. -/
theorem ffillBars_of_defined (df : List Bar) (h : ∀ b ∈ df, validB b = true) :
    ffillBars df = df := by
  apply List.ext_getElem
  · unfold ffillBars
    simp
  · intro i h1 h2
    unfold ffillBars
    rw [List.getElem_map, List.getElem_range]
    have hmem : df[i] ∈ df := List.getElem_mem h2
    obtain ⟨o, hi', lo, c, v, hbar, _⟩ := validB_elim df[i] (h df[i] hmem)
    have htake : df.take (i + 1) = df.take i ++ [df[i]] := by
      rw [List.take_succ, List.getElem?_eq_getElem h2]
      rfl
    rw [htake]
    simp only [List.map_append, List.map_cons, List.map_nil]
    rw [ffillLast_concat _ _ (by rw [hbar]; rfl), ffillLast_concat _ _ (by rw [hbar]; rfl),
      ffillLast_concat _ _ (by rw [hbar]; rfl), ffillLast_concat _ _ (by rw [hbar]; rfl),
      ffillLast_concat _ _ (by rw [hbar]; rfl)]

/-- The enriched frame has one row per input bar. -/
theorem computeIndicators_length (df : List Bar) (m : ℚ) :
    (computeIndicators df m).length = df.length := by
  unfold computeIndicators ffillBars
  simp

/-- Claim C7 as amended: for bars satisfying the stated validity constraints,
every defined CMF value lies in [-1, 1]; for the MFI bound [0, 100] the
constraints must additionally include a nonnegative Low (nonnegative prices),
which the counterexample shows cannot be dropped. -/
theorem cmf_mfi_bounds (df : List Bar) (m : ℚ) (i : ℕ)
    (hv : ∀ b ∈ df, validB b = true) :
    (∀ q : ℚ, ((computeIndicators df m)[i]?).bind IndRow.CMF = some q →
      -1 ≤ q ∧ q ≤ 1)
    ∧ ((∀ b ∈ df, lowNonnegB b = true) →
      ∀ q : ℚ, ((computeIndicators df m)[i]?).bind IndRow.MFI = some q →
        0 ≤ q ∧ q ≤ 100) := by
  by_cases hi : i < df.length
  · rw [computeIndicators_getElem df m i hi, ffillBars_of_defined df hv]
    have hCMF : (rowAt (df.take (i + 1)) m).CMF = cmfLast (df.take (i + 1)) := rfl
    have hMFI : (rowAt (df.take (i + 1)) m).MFI = mfiLast (df.take (i + 1)) := rfl
    have hvt : ∀ b ∈ df.take (i + 1), validB b = true :=
      fun b hb => hv b (List.take_subset _ _ hb)
    constructor
    · intro q hq
      simp only [Option.some_bind] at hq
      rw [show IndRow.CMF (rowAt (df.take (i + 1)) m) = cmfLast (df.take (i + 1))
        from hCMF] at hq
      exact cmfLast_bound _ hvt q hq
    · intro hlow q hq
      simp only [Option.some_bind] at hq
      rw [show IndRow.MFI (rowAt (df.take (i + 1)) m) = mfiLast (df.take (i + 1))
        from hMFI] at hq
      exact mfiLast_bound _ hvt (fun b hb => hlow b (List.take_subset _ _ hb)) q hq
  · have hnone : (computeIndicators df m)[i]? = none := by
      rw [List.getElem?_eq_none]
      rw [computeIndicators_length]
      omega
    rw [hnone]
    constructor
    · intro q hq
      simp at hq
    · intro _ q hq
      simp at hq

set_option maxRecDepth 2000 in
/-- Witness for the amended C7: twenty valid bars with nonnegative prices on
which the last CMF is 0 and the last MFI is 200 / 3, both inside the claimed
ranges. -/
theorem cmf_mfi_bounds_witness :
    ((-1 : ℚ) ≤ 0 ∧ (0 : ℚ) ≤ 1) ∧
      ((0 : ℚ) ≤ 200 / 3 ∧ (200 / 3 : ℚ) ≤ 100) :=
  ⟨(cmf_mfi_bounds boundsW 1 19 (by decide)).1 0 (by with_unfolding_all rfl),
    (cmf_mfi_bounds boundsW 1 19 (by decide)).2 (by decide) (200 / 3)
      (by with_unfolding_all rfl)⟩
